import Mathlib

/-!
Verification of the surge-tui text-editing engine against its specification.

The definitions below are a shallow embedding of the Go source:
* `textBuffer` and its mutation operators embed the buffer type of the
  `screens` package (file `part_007`): Go `[]rune` lines become
  `List Char`, Go slicing `s[a:b]` becomes `(s.take b).drop a`, Go
  slice indexing becomes `List.getD` (all reachable accesses are in
  range), and Go's in-place mutation becomes functional update.
  Cursor coordinates are Go `int`s that the code keeps non-negative;
  they are embedded as `Nat`, and the two `< 0` clamps of
  `normalizeCursor` are modelled by `Int.toNat` at the only entry
  point that accepts caller-supplied integers (`moveCursorTo`).
* `EditorState` with `undo` / `redo` / `beginMutation` and the
  autosave state machine embed the corresponding parts of
  `editor_screen.go`.  Go appends snapshots at the end of a slice;
  this is embedded as appending at the end of a `List`.
* `highlightLine` and `WindowLine` embed `highlight.go`.  The Go
  `for` loops are embedded as fuel-indexed recursions; the fuel
  passed by the wrappers always exceeds the number of loop
  iterations, so the fuel-exhaustion branches are never taken.
-/

/-! ## Buffer model (Go package screens, textBuffer) -/

structure textPos where
  line : Nat
  col : Nat
deriving DecidableEq

structure textBuffer where
  lines : List (List Char)
  cursor : textPos
  anchor : Option textPos
deriving DecidableEq

def newTextBuffer : textBuffer :=
  { lines := [[]], cursor := ⟨0, 0⟩, anchor := none }

/-- Go `lineLength`: length of the line at an index, 0 when out of range. -/
def lineLength (b : textBuffer) (line : Nat) : Nat :=
  if line ≥ b.lines.length then 0 else (b.lines.getD line []).length

/-- Go `normalizeCursor`.  The `< 0` clamps of the source are vacuous over
`Nat`; they are performed by `Int.toNat` in `moveCursorTo`. -/
def normalizeCursor (b : textBuffer) : textBuffer :=
  let line := if b.cursor.line ≥ b.lines.length then b.lines.length - 1 else b.cursor.line
  let lineLen := lineLength b line
  let col := if b.cursor.col > lineLen then lineLen else b.cursor.col
  { b with cursor := ⟨line, col⟩ }

def moveCursorTo (b : textBuffer) (line col : Int) : textBuffer :=
  normalizeCursor { b with cursor := ⟨line.toNat, col.toNat⟩ }

def moveCursorLeft (b : textBuffer) : textBuffer :=
  if b.cursor.col > 0 then
    { b with cursor := ⟨b.cursor.line, b.cursor.col - 1⟩ }
  else if b.cursor.line > 0 then
    { b with cursor := ⟨b.cursor.line - 1, (b.lines.getD (b.cursor.line - 1) []).length⟩ }
  else b

def moveCursorRight (b : textBuffer) : textBuffer :=
  if b.cursor.col < (b.lines.getD b.cursor.line []).length then
    { b with cursor := ⟨b.cursor.line, b.cursor.col + 1⟩ }
  else if b.cursor.line + 1 < b.lines.length then
    { b with cursor := ⟨b.cursor.line + 1, 0⟩ }
  else b

def moveCursorUp (b : textBuffer) : textBuffer :=
  if b.cursor.line = 0 then
    { b with cursor := ⟨0, min b.cursor.col (b.lines.getD 0 []).length⟩ }
  else
    { b with cursor :=
        ⟨b.cursor.line - 1, min b.cursor.col (b.lines.getD (b.cursor.line - 1) []).length⟩ }

def moveCursorDown (b : textBuffer) : textBuffer :=
  if b.cursor.line + 1 ≥ b.lines.length then
    { b with cursor :=
        ⟨b.cursor.line, min b.cursor.col (b.lines.getD (b.lines.length - 1) []).length⟩ }
  else
    { b with cursor :=
        ⟨b.cursor.line + 1, min b.cursor.col (b.lines.getD (b.cursor.line + 1) []).length⟩ }

def setAnchor (b : textBuffer) : textBuffer :=
  { b with anchor := some b.cursor }

def clearAnchor (b : textBuffer) : textBuffer :=
  { b with anchor := none }

def hasSelection (b : textBuffer) : Bool :=
  match b.anchor with
  | none => false
  | some a => decide (a ≠ b.cursor)

/-- Go `selectionRange`: the anchor/cursor pair ordered by `(line, col)`. -/
def selectionRange (b : textBuffer) : textPos × textPos :=
  if hasSelection b then
    let s := b.anchor.getD b.cursor
    let e := b.cursor
    if s.line > e.line ∨ (s.line = e.line ∧ s.col > e.col) then (e, s) else (s, e)
  else (b.cursor, b.cursor)

/-- Go `selectedText`: the text between the normalized selection endpoints,
with `\n` between lines. -/
def selectedText (b : textBuffer) : String :=
  if hasSelection b then
    let s := (selectionRange b).1
    let e := (selectionRange b).2
    if s.line = e.line then
      String.mk (((b.lines.getD s.line []).take e.col).drop s.col)
    else
      String.mk
        ((b.lines.getD s.line []).drop s.col ++ ['\n'] ++
          (List.range (e.line - s.line - 1)).flatMap
            (fun k => b.lines.getD (s.line + 1 + k) [] ++ ['\n']) ++
          (b.lines.getD e.line []).take e.col)
  else ""

/-- Go `deleteSelection`: removes the selected range, returns the removed text. -/
def deleteSelection (b : textBuffer) : textBuffer × String :=
  if hasSelection b then
    let s := (selectionRange b).1
    let e := (selectionRange b).2
    let removed := selectedText b
    let b1 :=
      if s.line = e.line then
        let line := b.lines.getD s.line []
        let line := line.take s.col ++ line.drop e.col
        { b with lines := b.lines.set s.line line }
      else
        let head := (b.lines.getD s.line []).take s.col
        let tail := (b.lines.getD e.line []).drop e.col
        let merged := head ++ tail
        let lines := b.lines.set s.line merged
        let lines := lines.take (s.line + 1) ++ lines.drop (e.line + 1)
        { b with lines := lines }
    (normalizeCursor { b1 with cursor := s, anchor := none }, removed)
  else (b, "")

/-- Go `insertRune`: deletes the selection if present, then splices the rune
in (splitting the line when the rune is a newline). -/
def insertRune (b : textBuffer) (r : Char) : textBuffer :=
  let b := if hasSelection b then (deleteSelection b).1 else b
  if r = '\n' then
    let current := b.lines.getD b.cursor.line []
    let before := current.take b.cursor.col
    let after := current.drop b.cursor.col
    let lines := (b.lines.set b.cursor.line before).insertIdx (b.cursor.line + 1) after
    { b with lines := lines, cursor := ⟨b.cursor.line + 1, 0⟩ }
  else
    let line := b.lines.getD b.cursor.line []
    let line := line.take b.cursor.col ++ [r] ++ line.drop b.cursor.col
    { b with lines := b.lines.set b.cursor.line line,
             cursor := ⟨b.cursor.line, b.cursor.col + 1⟩ }

/-- Go `insertString`: inserts the runes of the string one by one.  A Lean
`String` is a sequence of Unicode scalar values, so the invalid-UTF-8 skip of
the source is vacuous here. -/
def insertString (b : textBuffer) (str : String) : textBuffer :=
  str.toList.foldl insertRune b

/-- Go `deleteBackward`: removes the selection, or the rune before the
cursor, or merges the current line into the previous one. -/
def deleteBackward (b : textBuffer) : textBuffer × String :=
  if hasSelection b then deleteSelection b
  else if b.cursor.col > 0 then
    let line := b.lines.getD b.cursor.line []
    let removed := String.mk ((line.take b.cursor.col).drop (b.cursor.col - 1))
    let line := line.take (b.cursor.col - 1) ++ line.drop b.cursor.col
    ({ b with lines := b.lines.set b.cursor.line line,
              cursor := ⟨b.cursor.line, b.cursor.col - 1⟩ }, removed)
  else if b.cursor.line = 0 then (b, "")
  else
    let prevLine := b.lines.getD (b.cursor.line - 1) []
    let current := b.lines.getD b.cursor.line []
    let merged := prevLine ++ current
    let lines := b.lines.set (b.cursor.line - 1) merged
    let lines := lines.take b.cursor.line ++ lines.drop (b.cursor.line + 1)
    ({ b with lines := lines, cursor := ⟨b.cursor.line - 1, prevLine.length⟩ }, "\n")

/-- Go `deleteForward`: removes the selection, or the rune under the cursor,
or merges the next line into the current one. -/
def deleteForward (b : textBuffer) : textBuffer × String :=
  if hasSelection b then deleteSelection b
  else
    let line := b.lines.getD b.cursor.line []
    if b.cursor.col < line.length then
      let removed := String.mk ((line.take (b.cursor.col + 1)).drop b.cursor.col)
      let line := line.take b.cursor.col ++ line.drop (b.cursor.col + 1)
      ({ b with lines := b.lines.set b.cursor.line line }, removed)
    else if b.cursor.line + 1 ≥ b.lines.length then (b, "")
    else
      let next := b.lines.getD (b.cursor.line + 1) []
      let merged := line ++ next
      let lines := b.lines.set b.cursor.line merged
      let lines := lines.take (b.cursor.line + 1) ++ lines.drop (b.cursor.line + 2)
      ({ b with lines := lines }, "\n")

/-- Go `fullText`: the lines joined with `\n` (no trailing newline added). -/
def fullText (b : textBuffer) : String :=
  String.intercalate "\n" (b.lines.map String.mk)

/-- Model of Go `strings.Split(content, "\x5Cn")`: splits at every newline,
always producing one more part than there are separators (so a trailing
newline yields a trailing empty part, and the empty string yields one
empty part). -/
def splitLines : List Char → List (List Char)
  | [] => [[]]
  | c :: rest =>
    if c = '\n' then [] :: splitLines rest
    else
      match splitLines rest with
      | [] => [[c]]
      | first :: others => (c :: first) :: others

/-- Model of Go `strings.HasSuffix(content, "\x5Cn")`. -/
def endsWithNewline (l : List Char) : Bool :=
  l.getLast? == some '\n'

/-- Go `replaceAll`: resets the buffer from a string; after splitting, one
extra empty line is appended whenever the content ends with a newline. -/
def replaceAll (b : textBuffer) (content : String) : textBuffer :=
  let b0 : textBuffer := { lines := [[]], cursor := ⟨0, 0⟩, anchor := none }
  if content = "" then b0
  else
    let parts := splitLines content.toList
    let lines := if endsWithNewline content.toList then parts ++ [[]] else parts
    normalizeCursor { b0 with lines := lines }

/-! ## First concrete claims -/

/-- C1.  Evaluation of `replaceAll` at the failing input `"a\x5Cnb\x5Cn"`:
the code keeps the trailing empty part produced by the split AND appends
another empty line, so the buffer gets lines `["a","b","",""]` and
`fullText` returns `"a\x5Cnb\x5Cn\x5Cn"`, not `"a\x5Cnb\x5Cn"` — the
round-trip demanded by the claim fails, while the claim's first example
(content without a trailing newline) does hold. -/
theorem C1_replaceAll_trailing_newline_eval :
    (replaceAll newTextBuffer "a\nb").lines = [['a'], ['b']] ∧
    fullText (replaceAll newTextBuffer "a\nb") = "a\nb" ∧
    (replaceAll newTextBuffer "a\nb\n").lines = [['a'], ['b'], [], []] ∧
    fullText (replaceAll newTextBuffer "a\nb\n") = "a\nb\n\n" ∧
    fullText (replaceAll newTextBuffer "a\nb\n") ≠ "a\nb\n" := by
  refine ⟨rfl, rfl, rfl, rfl, ?_⟩
  decide

/-- C8.  On lines `["hello","world"]` with anchor `(0,2)` and cursor
`(1,3)`, `deleteSelection` leaves the single line `"held"` and returns the
removed text `"llo\x5Cnwor"`. -/
theorem C8_deleteSelection_example :
    (deleteSelection
        { lines := ["hello".toList, "world".toList],
          cursor := ⟨1, 3⟩, anchor := some ⟨0, 2⟩ }).1.lines = ["held".toList] ∧
    (deleteSelection
        { lines := ["hello".toList, "world".toList],
          cursor := ⟨1, 3⟩, anchor := some ⟨0, 2⟩ }).2 = "llo\nwor" := by
  exact ⟨rfl, rfl⟩

/-! ## List access helper lemmas -/

theorem getD_set_self {α : Type} (l : List α) (n : Nat) (a d : α) (h : n < l.length) :
    (l.set n a).getD n d = a := by
  induction l generalizing n with
  | nil => simp at h
  | cons x xs ih =>
    cases n with
    | zero => rfl
    | succ m => simpa using ih m (by simpa using h)

theorem getD_set_ne {α : Type} (l : List α) (n m : Nat) (a d : α) (h : m ≠ n) :
    (l.set n a).getD m d = l.getD m d := by
  induction l generalizing n m with
  | nil => rfl
  | cons x xs ih =>
    cases n with
    | zero => cases m with
      | zero => exact absurd rfl h
      | succ k => rfl
    | succ n' => cases m with
      | zero => rfl
      | succ k => simpa using ih n' k (by omega)

theorem getD_take_lt {α : Type} (l : List α) (n m : Nat) (d : α) (h : m < n) :
    (l.take n).getD m d = l.getD m d := by
  induction l generalizing n m with
  | nil => simp
  | cons x xs ih =>
    cases n with
    | zero => omega
    | succ n' =>
      cases m with
      | zero => rfl
      | succ k => simpa using ih n' k (by omega)

theorem getD_append_lt {α : Type} (l l' : List α) (n : Nat) (d : α) (h : n < l.length) :
    (l ++ l').getD n d = l.getD n d :=
  List.getD_append l l' d n h

theorem set_getD_self {α : Type} (l : List α) (n : Nat) (d : α) (h : n < l.length) :
    l.set n (l.getD n d) = l := by
  induction l generalizing n with
  | nil => rfl
  | cons x xs ih =>
    cases n with
    | zero => rfl
    | succ m => simpa using ih m (by simpa using h)

theorem getD_insertIdx_lt {α : Type} (l : List α) (n m : Nat) (a d : α) (h : m < n) :
    (l.insertIdx n a).getD m d = l.getD m d := by
  induction l generalizing n m with
  | nil =>
    cases n with
    | zero => omega
    | succ n' => rfl
  | cons x xs ih =>
    cases n with
    | zero => omega
    | succ n' =>
      cases m with
      | zero => rfl
      | succ k => simpa using ih n' k (by omega)

theorem getD_insertIdx_self {α : Type} (l : List α) (n : Nat) (a d : α) (h : n ≤ l.length) :
    (l.insertIdx n a).getD n d = a := by
  induction l generalizing n with
  | nil =>
    cases n with
    | zero => rfl
    | succ n' => simp at h
  | cons x xs ih =>
    cases n with
    | zero => rfl
    | succ n' => simpa using ih n' (by simpa using h)

theorem take_insertIdx_self {α : Type} (l : List α) (n : Nat) (a : α) :
    (l.insertIdx n a).take n = l.take n := by
  induction l generalizing n with
  | nil =>
    cases n with
    | zero => rfl
    | succ n' => rfl
  | cons x xs ih =>
    cases n with
    | zero => rfl
    | succ n' => simpa using ih n'

theorem drop_succ_insertIdx {α : Type} (l : List α) (n : Nat) (a : α) (h : n ≤ l.length) :
    (l.insertIdx n a).drop (n + 1) = l.drop n := by
  induction l generalizing n with
  | nil =>
    cases n with
    | zero => rfl
    | succ n' => simp at h
  | cons x xs ih =>
    cases n with
    | zero => rfl
    | succ n' => simpa using ih n' (by simpa using h)

theorem set_insertIdx_lt {α : Type} (l : List α) (n m : Nat) (a c : α) (h : m < n) :
    (l.insertIdx n a).set m c = (l.set m c).insertIdx n a := by
  induction l generalizing n m with
  | nil =>
    cases n with
    | zero => omega
    | succ n' => rfl
  | cons x xs ih =>
    cases n with
    | zero => omega
    | succ n' =>
      cases m with
      | zero => rfl
      | succ k => simpa using ih n' k (by omega)

theorem take_append_len {α : Type} (l l' : List α) (n : Nat) (h : l.length = n) :
    (l ++ l').take n = l := by
  subst h
  simp

theorem drop_append_len {α : Type} (l l' : List α) (n : Nat) (h : l.length = n) :
    (l ++ l').drop n = l' := by
  subst h
  simp

/-! ## The buffer invariant (C3) -/

/-- The invariant of the claim: at least one line, cursor line in range,
cursor column at most the length of the cursor's line. -/
def bufInvariant (b : textBuffer) : Prop :=
  1 ≤ b.lines.length ∧ b.cursor.line < b.lines.length ∧
    b.cursor.col ≤ (b.lines.getD b.cursor.line []).length

instance (b : textBuffer) : Decidable (bufInvariant b) := by
  unfold bufInvariant
  infer_instance

theorem normalizeCursor_lines (b : textBuffer) : (normalizeCursor b).lines = b.lines := rfl

theorem bufInvariant_normalizeCursor (b : textBuffer) (h : 1 ≤ b.lines.length) :
    bufInvariant (normalizeCursor b) := by
  unfold bufInvariant normalizeCursor lineLength
  by_cases hl : b.cursor.line ≥ b.lines.length
  · simp only [hl, if_true]
    have h1 : ¬ (b.lines.length - 1 ≥ b.lines.length) := by omega
    simp only [h1, if_false]
    refine ⟨h, by omega, ?_⟩
    split <;> omega
  · simp only [hl, if_false]
    refine ⟨h, by omega, ?_⟩
    split <;> omega

theorem normalizeCursor_eq_self (b : textBuffer) (h : bufInvariant b) :
    normalizeCursor b = b := by
  obtain ⟨h1, h2, h3⟩ := h
  unfold normalizeCursor lineLength
  have hl : ¬ (b.cursor.line ≥ b.lines.length) := by omega
  simp only [hl, if_false]
  have hc : ¬ (b.cursor.col > (b.lines.getD b.cursor.line []).length) := by omega
  simp only [hc, if_false]

theorem bufInvariant_moveCursorLeft (b : textBuffer) (h : bufInvariant b) :
    bufInvariant (moveCursorLeft b) := by
  obtain ⟨k1, k2, k3⟩ := h
  unfold moveCursorLeft
  split
  · refine ⟨k1, ?_, ?_⟩ <;> dsimp only <;> omega
  · split
    · refine ⟨k1, ?_, ?_⟩ <;> dsimp only <;> omega
    · exact ⟨k1, k2, k3⟩

theorem bufInvariant_moveCursorRight (b : textBuffer) (h : bufInvariant b) :
    bufInvariant (moveCursorRight b) := by
  obtain ⟨k1, k2, k3⟩ := h
  unfold moveCursorRight
  split
  · next hlt => refine ⟨k1, ?_, ?_⟩ <;> dsimp only <;> omega
  · split
    · next hlt => refine ⟨k1, ?_, ?_⟩ <;> dsimp only <;> omega
    · exact ⟨k1, k2, k3⟩

theorem bufInvariant_moveCursorUp (b : textBuffer) (h : bufInvariant b) :
    bufInvariant (moveCursorUp b) := by
  obtain ⟨k1, k2, k3⟩ := h
  unfold moveCursorUp
  split
  · next h0 => refine ⟨k1, ?_, ?_⟩ <;> dsimp only <;> omega
  · refine ⟨k1, ?_, ?_⟩ <;> dsimp only <;> omega

theorem bufInvariant_moveCursorDown (b : textBuffer) (h : bufInvariant b) :
    bufInvariant (moveCursorDown b) := by
  obtain ⟨k1, k2, k3⟩ := h
  unfold moveCursorDown
  split
  · next hge =>
    have hline : b.cursor.line = b.lines.length - 1 := by omega
    refine ⟨k1, ?_, ?_⟩ <;> dsimp only
    · omega
    · rw [hline]
      omega
  · next hlt => refine ⟨k1, ?_, ?_⟩ <;> dsimp only <;> omega

theorem bufInvariant_moveCursorTo (b : textBuffer) (line col : Int) (h : bufInvariant b) :
    bufInvariant (moveCursorTo b line col) :=
  bufInvariant_normalizeCursor _ h.1

theorem bufInvariant_setAnchor (b : textBuffer) (h : bufInvariant b) :
    bufInvariant (setAnchor b) := h

theorem bufInvariant_clearAnchor (b : textBuffer) (h : bufInvariant b) :
    bufInvariant (clearAnchor b) := h

theorem bufInvariant_deleteSelection (b : textBuffer) (h : bufInvariant b) :
    bufInvariant (deleteSelection b).1 := by
  unfold deleteSelection
  cases hs : hasSelection b with
  | false => simpa [hs] using h
  | true =>
    simp only [hs, if_true]
    apply bufInvariant_normalizeCursor
    split
    · simpa using h.1
    · simp only [List.length_append, List.length_take, List.length_drop, List.length_set]
      have := h.1
      omega

theorem bufInvariant_insertRune (b : textBuffer) (r : Char) (h : bufInvariant b) :
    bufInvariant (insertRune b r) := by
  unfold insertRune
  have h1 : bufInvariant (if hasSelection b then (deleteSelection b).1 else b) := by
    split
    · exact bufInvariant_deleteSelection b h
    · exact h
  set b1 := if hasSelection b then (deleteSelection b).1 else b with hb1
  obtain ⟨k1, k2, k3⟩ := h1
  by_cases hr : r = '\n'
  · rw [if_pos hr]
    have hlen : b1.cursor.line + 1 ≤ (b1.lines.set b1.cursor.line
        ((b1.lines.getD b1.cursor.line []).take b1.cursor.col)).length := by
      simp only [List.length_set]; omega
    refine ⟨?_, ?_, ?_⟩
    · rw [List.length_insertIdx _ _ hlen]
      simp only [List.length_set]
      omega
    · rw [List.length_insertIdx _ _ hlen]
      simp only [List.length_set]
      omega
    · exact Nat.zero_le _
  · rw [if_neg hr]
    refine ⟨?_, ?_, ?_⟩
    · simpa using k1
    · simpa using k2
    · rw [getD_set_self _ _ _ _ k2]
      simp only [List.length_append, List.length_take, List.length_drop, List.length_cons,
        List.length_nil]
      omega

theorem bufInvariant_insertString (b : textBuffer) (s : String) (h : bufInvariant b) :
    bufInvariant (insertString b s) := by
  unfold insertString
  have key : ∀ (cs : List Char) (b : textBuffer), bufInvariant b →
      bufInvariant (cs.foldl insertRune b) := by
    intro cs
    induction cs with
    | nil => intro b hb; exact hb
    | cons c rest ih =>
      intro b hb
      exact ih (insertRune b c) (bufInvariant_insertRune b c hb)
  exact key s.toList b h

theorem bufInvariant_deleteBackward (b : textBuffer) (h : bufInvariant b) :
    bufInvariant (deleteBackward b).1 := by
  obtain ⟨k1, k2, k3⟩ := h
  unfold deleteBackward
  cases hs : hasSelection b with
  | true =>
    simp only [hs, if_true]
    exact bufInvariant_deleteSelection b ⟨k1, k2, k3⟩
  | false =>
    simp only [hs, Bool.false_eq_true, if_false]
    by_cases hc : b.cursor.col > 0
    · rw [if_pos hc]
      refine ⟨?_, ?_, ?_⟩ <;> dsimp only
      · simpa using k1
      · simpa using k2
      · rw [getD_set_self _ _ _ _ k2]
        simp only [List.length_append, List.length_take, List.length_drop]
        omega
    · rw [if_neg hc]
      by_cases hl : b.cursor.line = 0
      · rw [if_pos hl]
        exact ⟨k1, k2, k3⟩
      · rw [if_neg hl]
        refine ⟨?_, ?_, ?_⟩ <;> dsimp only
        · simp only [List.length_append, List.length_take, List.length_drop, List.length_set]
          omega
        · simp only [List.length_append, List.length_take, List.length_drop, List.length_set]
          omega
        · rw [getD_append_lt _ _ _ _ (by
            simp only [List.length_take, List.length_set]
            omega)]
          rw [getD_take_lt _ _ _ _ (by omega)]
          rw [getD_set_self _ _ _ _ (by omega)]
          simp only [List.length_append]
          omega

theorem bufInvariant_deleteForward (b : textBuffer) (h : bufInvariant b) :
    bufInvariant (deleteForward b).1 := by
  obtain ⟨k1, k2, k3⟩ := h
  unfold deleteForward
  cases hs : hasSelection b with
  | true =>
    simp only [hs, if_true]
    exact bufInvariant_deleteSelection b ⟨k1, k2, k3⟩
  | false =>
    simp only [hs, Bool.false_eq_true, if_false]
    by_cases hc : b.cursor.col < (b.lines.getD b.cursor.line []).length
    · rw [if_pos hc]
      refine ⟨?_, ?_, ?_⟩ <;> dsimp only
      · simpa using k1
      · simpa using k2
      · rw [getD_set_self _ _ _ _ k2]
        simp only [List.length_append, List.length_take, List.length_drop]
        omega
    · rw [if_neg hc]
      by_cases hl : b.cursor.line + 1 ≥ b.lines.length
      · rw [if_pos hl]
        exact ⟨k1, k2, k3⟩
      · rw [if_neg hl]
        refine ⟨?_, ?_, ?_⟩ <;> dsimp only
        · simp only [List.length_append, List.length_take, List.length_drop, List.length_set]
          omega
        · simp only [List.length_append, List.length_take, List.length_drop, List.length_set]
          omega
        · rw [getD_append_lt _ _ _ _ (by
            simp only [List.length_take, List.length_set]
            omega)]
          rw [getD_take_lt _ _ _ _ (by omega)]
          rw [getD_set_self _ _ _ _ (by omega)]
          simp only [List.length_append]
          omega

theorem splitLines_ne_nil (l : List Char) : splitLines l ≠ [] := by
  cases l with
  | nil => simp [splitLines]
  | cons c rest =>
    unfold splitLines
    split
    · simp
    · split <;> simp

theorem bufInvariant_replaceAll (b : textBuffer) (content : String) :
    bufInvariant (replaceAll b content) := by
  unfold replaceAll
  split
  · exact ⟨by simp, by simp, by simp⟩
  · apply bufInvariant_normalizeCursor
    have hne := splitLines_ne_nil content.toList
    have hpos : 0 < (splitLines content.toList).length := List.length_pos.mpr hne
    dsimp only
    split
    · simp only [List.length_append, List.length_cons, List.length_nil]
      omega
    · omega

/-- An arbitrary buffer operation, used to state the claim's "for all
mutation sequences" part. -/
inductive BufferOp
  | opMoveLeft
  | opMoveRight
  | opMoveUp
  | opMoveDown
  | opMoveTo (line col : Int)
  | opSetAnchor
  | opClearAnchor
  | opInsertRune (r : Char)
  | opInsertString (s : String)
  | opDeleteBackward
  | opDeleteForward
  | opDeleteSelection
  | opReplaceAll (content : String)
deriving DecidableEq

def applyOp (b : textBuffer) : BufferOp → textBuffer
  | .opMoveLeft => moveCursorLeft b
  | .opMoveRight => moveCursorRight b
  | .opMoveUp => moveCursorUp b
  | .opMoveDown => moveCursorDown b
  | .opMoveTo line col => moveCursorTo b line col
  | .opSetAnchor => setAnchor b
  | .opClearAnchor => clearAnchor b
  | .opInsertRune r => insertRune b r
  | .opInsertString s => insertString b s
  | .opDeleteBackward => (deleteBackward b).1
  | .opDeleteForward => (deleteForward b).1
  | .opDeleteSelection => (deleteSelection b).1
  | .opReplaceAll content => replaceAll b content

def applyOps (b : textBuffer) (ops : List BufferOp) : textBuffer :=
  ops.foldl applyOp b

theorem bufInvariant_applyOp (b : textBuffer) (op : BufferOp) (h : bufInvariant b) :
    bufInvariant (applyOp b op) := by
  cases op with
  | opMoveLeft => exact bufInvariant_moveCursorLeft b h
  | opMoveRight => exact bufInvariant_moveCursorRight b h
  | opMoveUp => exact bufInvariant_moveCursorUp b h
  | opMoveDown => exact bufInvariant_moveCursorDown b h
  | opMoveTo line col => exact bufInvariant_moveCursorTo b line col h
  | opSetAnchor => exact bufInvariant_setAnchor b h
  | opClearAnchor => exact bufInvariant_clearAnchor b h
  | opInsertRune r => exact bufInvariant_insertRune b r h
  | opInsertString s => exact bufInvariant_insertString b s h
  | opDeleteBackward => exact bufInvariant_deleteBackward b h
  | opDeleteForward => exact bufInvariant_deleteForward b h
  | opDeleteSelection => exact bufInvariant_deleteSelection b h
  | opReplaceAll content => exact bufInvariant_replaceAll b content

theorem bufInvariant_applyOps (b : textBuffer) (ops : List BufferOp) (h : bufInvariant b) :
    bufInvariant (applyOps b ops) := by
  unfold applyOps
  induction ops generalizing b with
  | nil => exact h
  | cons op rest ih => exact ih (applyOp b op) (bufInvariant_applyOp b op h)

/-- C3.  Every buffer operation preserves the invariant
`len(lines) ≥ 1 ∧ cursor.line < len(lines) ∧ cursor.col ≤ len(lines[cursor.line])`,
and consequently, along every sequence of operations started from a buffer
satisfying the invariant, the buffer never has zero lines. -/
theorem C3_operations_preserve_invariant (b : textBuffer) (r : Char) (s : String)
    (line col : Int) (ops : List BufferOp) (h : bufInvariant b) :
    bufInvariant (moveCursorLeft b) ∧
    bufInvariant (moveCursorRight b) ∧
    bufInvariant (moveCursorUp b) ∧
    bufInvariant (moveCursorDown b) ∧
    bufInvariant (moveCursorTo b line col) ∧
    bufInvariant (setAnchor b) ∧
    bufInvariant (clearAnchor b) ∧
    bufInvariant (insertRune b r) ∧
    bufInvariant (insertString b s) ∧
    bufInvariant (deleteBackward b).1 ∧
    bufInvariant (deleteForward b).1 ∧
    bufInvariant (deleteSelection b).1 ∧
    bufInvariant (replaceAll b s) ∧
    bufInvariant (applyOps b ops) ∧
    1 ≤ (applyOps b ops).lines.length :=
  ⟨bufInvariant_moveCursorLeft b h, bufInvariant_moveCursorRight b h,
   bufInvariant_moveCursorUp b h, bufInvariant_moveCursorDown b h,
   bufInvariant_moveCursorTo b line col h, bufInvariant_setAnchor b h,
   bufInvariant_clearAnchor b h, bufInvariant_insertRune b r h,
   bufInvariant_insertString b s h, bufInvariant_deleteBackward b h,
   bufInvariant_deleteForward b h, bufInvariant_deleteSelection b h,
   bufInvariant_replaceAll b s, bufInvariant_applyOps b ops h,
   (bufInvariant_applyOps b ops h).1⟩

/-- Witness for C3 at a concrete buffer and operation sequence. -/
theorem C3_witness :
    bufInvariant newTextBuffer ∧
    bufInvariant (applyOps newTextBuffer
      [.opInsertString "hi\nthere", .opMoveUp, .opSetAnchor, .opMoveRight,
       .opDeleteBackward, .opReplaceAll "x\n"]) :=
  ⟨by decide,
   (C3_operations_preserve_invariant newTextBuffer 'a' "hi" 1 2
      [.opInsertString "hi\nthere", .opMoveUp, .opSetAnchor, .opMoveRight,
       .opDeleteBackward, .opReplaceAll "x\n"] (by decide)).2.2.2.2.2.2.2.2.2.2.2.2.2.1⟩

/-- C10.  With no selection and the cursor at the origin, `deleteBackward`
returns the empty string and leaves the whole buffer (lines, cursor and
anchor) unchanged. -/
theorem C10_deleteBackward_at_origin (b : textBuffer)
    (hsel : hasSelection b = false) (hc : b.cursor = ⟨0, 0⟩) :
    deleteBackward b = (b, "") := by
  unfold deleteBackward
  rw [hsel]
  simp [hc]

/-- Witness for C10 at a concrete buffer. -/
theorem C10_witness :
    deleteBackward { lines := ["ab".toList], cursor := ⟨0, 0⟩, anchor := none } =
      ({ lines := ["ab".toList], cursor := ⟨0, 0⟩, anchor := none }, "") :=
  C10_deleteBackward_at_origin _ (by decide) rfl

/-! ## Insert/delete inverse (C4) -/

theorem splice_take_of_le (l : List Char) (co : Nat) (r : Char) (h : co ≤ l.length) :
    (l.take co ++ [r] ++ l.drop co).take co = l.take co := by
  rw [List.append_assoc, List.take_append_eq_append_take]
  have hlen : (l.take co).length = co := by
    simp [List.length_take]
    omega
  rw [hlen, Nat.sub_self]
  simp [List.take_take]

theorem splice_drop_of_le (l : List Char) (co : Nat) (r : Char) (h : co ≤ l.length) :
    (l.take co ++ [r] ++ l.drop co).drop (co + 1) = l.drop co := by
  rw [List.append_assoc, List.drop_append_eq_append_drop]
  have hlen : (l.take co).length = co := by
    simp [List.length_take]
    omega
  rw [hlen, List.drop_eq_nil_of_le (by omega)]
  have homega : co + 1 - co = 1 := by omega
  rw [homega]
  simp

/-- C4 counterexample.  On the buffer with single line `"ab"`, anchor
`(0,0)` and cursor `(0,1)` — a state with an active selection —
`insertRune 'x'` first deletes the selection, so the subsequent
`deleteBackward()` does not restore the prior `(lines, cursor)`. -/
theorem C4_counterexample :
    ¬ ((deleteBackward (insertRune
          { lines := ["ab".toList], cursor := ⟨0, 1⟩, anchor := some ⟨0, 0⟩ } 'x')).1.lines =
            ["ab".toList] ∧
       (deleteBackward (insertRune
          { lines := ["ab".toList], cursor := ⟨0, 1⟩, anchor := some ⟨0, 0⟩ } 'x')).1.cursor =
            (⟨0, 1⟩ : textPos)) := by
  decide

/-- C4 (amended).  For every buffer satisfying the buffer invariant and with
no active selection (`hasSelection = false`, the reachable no-selection
states), inserting a rune and then calling `deleteBackward` restores the
exact prior `(lines, cursor)`. -/
theorem C4_insertRune_deleteBackward_inverse (b : textBuffer) (r : Char)
    (hinv : bufInvariant b) (hsel : hasSelection b = false) :
    (deleteBackward (insertRune b r)).1.lines = b.lines ∧
    (deleteBackward (insertRune b r)).1.cursor = b.cursor := by
  obtain ⟨lines, ⟨li, co⟩, anchor⟩ := b
  obtain ⟨k1, k2, k3⟩ := hinv
  simp only at k1 k2 k3
  unfold insertRune
  simp only [hsel, Bool.false_eq_true, if_false]
  rcases anchor with _ | a
  case none =>
    by_cases hr : r = '\n'
    · rw [if_pos hr]
      unfold deleteBackward
      dsimp only [hasSelection]
      simp only [Bool.false_eq_true, if_false]
      rw [if_neg (by omega), if_neg (by omega)]
      dsimp only
      simp only [Nat.add_sub_cancel]
      rw [getD_insertIdx_lt _ _ _ _ _ (by omega), getD_set_self _ _ _ _ k2]
      rw [getD_insertIdx_self _ _ _ _ (by simp only [List.length_set]; omega)]
      rw [set_insertIdx_lt _ _ _ _ _ (by omega), List.set_set, List.take_append_drop,
        set_getD_self _ _ _ k2]
      rw [take_insertIdx_self, drop_succ_insertIdx _ _ _ k2, List.take_append_drop]
      refine ⟨rfl, ?_⟩
      have hlen : ((lines.getD li []).take co).length = co := by
        simp only [List.length_take]
        omega
      rw [hlen]
    · rw [if_neg hr]
      unfold deleteBackward
      dsimp only [hasSelection]
      simp only [Bool.false_eq_true, if_false]
      rw [if_pos (by omega)]
      dsimp only
      simp only [Nat.add_sub_cancel]
      rw [getD_set_self _ _ _ _ k2]
      rw [splice_take_of_le _ _ _ k3, splice_drop_of_le _ _ _ k3, List.take_append_drop]
      rw [List.set_set, set_getD_self _ _ _ k2]
      exact ⟨rfl, by trivial⟩
  case some =>
    have ha : a = ⟨li, co⟩ := by
      simpa [hasSelection] using hsel
    subst ha
    by_cases hr : r = '\n'
    · rw [if_pos hr]
      unfold deleteBackward
      have hselT : hasSelection
          { lines := (lines.set li ((lines.getD li []).take co)).insertIdx (li + 1)
              ((lines.getD li []).drop co),
            cursor := ⟨li + 1, 0⟩, anchor := some ⟨li, co⟩ } = true := by
        dsimp only [hasSelection]
        simp only [decide_eq_true_eq, ne_eq, textPos.mk.injEq]
        omega
      rw [hselT]
      simp only [if_true]
      unfold deleteSelection
      rw [hselT]
      simp only [if_true]
      have hrange : selectionRange
          { lines := (lines.set li ((lines.getD li []).take co)).insertIdx (li + 1)
              ((lines.getD li []).drop co),
            cursor := ⟨li + 1, 0⟩, anchor := some ⟨li, co⟩ } =
          (⟨li, co⟩, ⟨li + 1, 0⟩) := by
        unfold selectionRange
        rw [hselT]
        simp only [if_true]
        dsimp only [Option.getD_some]
        rw [if_neg (by omega)]
      rw [hrange]
      dsimp only
      rw [if_neg (by omega)]
      rw [getD_insertIdx_lt _ _ _ _ _ (by omega), getD_set_self _ _ _ _ k2]
      rw [getD_insertIdx_self _ _ _ _ (by simp only [List.length_set]; omega)]
      rw [List.take_take, Nat.min_self, List.drop_zero]
      rw [set_insertIdx_lt _ _ _ _ _ (by omega), List.set_set, List.take_append_drop,
        set_getD_self _ _ _ k2]
      rw [take_insertIdx_self, drop_succ_insertIdx _ _ _ k2, List.take_append_drop]
      rw [normalizeCursor_eq_self _ ⟨k1, k2, k3⟩]
      exact ⟨rfl, rfl⟩
    · rw [if_neg hr]
      unfold deleteBackward
      have hselT : hasSelection
          { lines := lines.set li
              ((lines.getD li []).take co ++ [r] ++ (lines.getD li []).drop co),
            cursor := ⟨li, co + 1⟩, anchor := some ⟨li, co⟩ } = true := by
        dsimp only [hasSelection]
        simp only [decide_eq_true_eq, ne_eq, textPos.mk.injEq]
        omega
      rw [hselT]
      simp only [if_true]
      unfold deleteSelection
      rw [hselT]
      simp only [if_true]
      have hrange : selectionRange
          { lines := lines.set li
              ((lines.getD li []).take co ++ [r] ++ (lines.getD li []).drop co),
            cursor := ⟨li, co + 1⟩, anchor := some ⟨li, co⟩ } =
          (⟨li, co⟩, ⟨li, co + 1⟩) := by
        unfold selectionRange
        rw [hselT]
        simp only [if_true]
        dsimp only [Option.getD_some]
        rw [if_neg (by omega)]
      rw [hrange]
      dsimp only
      rw [if_pos rfl]
      rw [getD_set_self _ _ _ _ k2]
      rw [splice_take_of_le _ _ _ k3, splice_drop_of_le _ _ _ k3, List.take_append_drop]
      rw [List.set_set, set_getD_self _ _ _ k2]
      rw [normalizeCursor_eq_self _ ⟨k1, k2, k3⟩]
      exact ⟨rfl, rfl⟩


/-- Witness for the amended C4 at a concrete buffer. -/
theorem C4_witness :
    (deleteBackward (insertRune
        { lines := ["ab".toList], cursor := ⟨0, 1⟩, anchor := none } 'x')).1.lines =
      ["ab".toList] ∧
    (deleteBackward (insertRune
        { lines := ["ab".toList], cursor := ⟨0, 1⟩, anchor := none } 'x')).1.cursor =
      (⟨0, 1⟩ : textPos) :=
  C4_insertRune_deleteBackward_inverse
    { lines := ["ab".toList], cursor := ⟨0, 1⟩, anchor := none } 'x' (by decide) (by decide)

/-! ## Editor history model (editor_screen.go: beginMutation / undo / redo) -/

structure editorSnapshot where
  lines : List (List Char)
  cursor : textPos
  anchor : Option textPos
  dirty : Bool
deriving DecidableEq

/-- The fields of `editorState` that the history claims speak about:
the buffer, the dirty flag, the two snapshot stacks and the history bound.
Go appends snapshots at the end of a slice; pushes/pops are embedded at the
end of the list. -/
structure EditorState where
  buffer : textBuffer
  dirty : Bool
  undoStack : List editorSnapshot
  redoStack : List editorSnapshot
  maxHistory : Nat
deriving DecidableEq

/-- The snapshot Go builds from the current state (`cloneLines` and the
anchor copy are plain value copies in this embedding). -/
def currentSnapshot (s : EditorState) : editorSnapshot :=
  { lines := s.buffer.lines, cursor := s.buffer.cursor,
    anchor := s.buffer.anchor, dirty := s.dirty }

/-- Go `restoreSnapshot`.  `ensureCursorVisible` and `updateSearchMatches`
touch only scroll/search fields, which are outside this model. -/
def restoreSnapshot (s : EditorState) (snap : editorSnapshot) : EditorState :=
  { s with
    buffer := { lines := snap.lines, cursor := snap.cursor, anchor := snap.anchor },
    dirty := snap.dirty }

/-- Go `beginMutation`: push a snapshot onto the undo stack, drop the oldest
entry past `maxHistory`, clear the redo stack. -/
def beginMutation (s : EditorState) : EditorState :=
  let undoStack := s.undoStack ++ [currentSnapshot s]
  let undoStack := if s.maxHistory < undoStack.length then undoStack.drop 1 else undoStack
  { s with undoStack := undoStack, redoStack := [] }

/-- Go `undo`: no-op on an empty undo stack; otherwise push the current
state onto the redo stack, pop the undo stack and restore its top. -/
def undo (s : EditorState) : EditorState :=
  match s.undoStack.getLast? with
  | none => s
  | some snap =>
    let s1 := { s with redoStack := s.redoStack ++ [currentSnapshot s] }
    let s2 := { s1 with undoStack := s1.undoStack.dropLast }
    restoreSnapshot s2 snap

/-- Go `redo`: the mirror image of `undo`. -/
def redo (s : EditorState) : EditorState :=
  match s.redoStack.getLast? with
  | none => s
  | some snap =>
    let s1 := { s with undoStack := s.undoStack ++ [currentSnapshot s] }
    let s2 := { s1 with redoStack := s1.redoStack.dropLast }
    restoreSnapshot s2 snap

/-- A mutation as the editor performs it: `beginMutation` first, then an
arbitrary buffer change, then `afterMutation`'s `dirty = true` (autosave
scheduling and viewport adjustment are outside this model). -/
def performMutation (s : EditorState) (buf : textBuffer) : EditorState :=
  { beginMutation s with buffer := buf, dirty := true }

theorem redo_undo_agrees (s : EditorState) (hre : s.redoStack = []) :
    (redo (undo s)).buffer.lines = s.buffer.lines ∧
    (redo (undo s)).buffer.cursor = s.buffer.cursor ∧
    (redo (undo s)).buffer.anchor = s.buffer.anchor ∧
    (redo (undo s)).dirty = s.dirty := by
  unfold undo
  cases hu : s.undoStack.getLast? with
  | none =>
    unfold redo
    rw [hre]
    simp
  | some snap =>
    unfold redo
    dsimp only [restoreSnapshot]
    rw [hre]
    simp [currentSnapshot]

/-- C2.  After any mutation `m` (a `beginMutation` followed by a buffer
change), `undo()` then `redo()` restores exactly the `(lines, cursor,
anchor, dirty)` that held immediately after `m`; and `redo()` on an empty
redo stack changes nothing. -/
theorem C2_undo_redo_exact (s0 : EditorState) (buf : textBuffer) (s : EditorState)
    (hre : s.redoStack = []) :
    ((redo (undo (performMutation s0 buf))).buffer.lines =
        (performMutation s0 buf).buffer.lines ∧
      (redo (undo (performMutation s0 buf))).buffer.cursor =
        (performMutation s0 buf).buffer.cursor ∧
      (redo (undo (performMutation s0 buf))).buffer.anchor =
        (performMutation s0 buf).buffer.anchor ∧
      (redo (undo (performMutation s0 buf))).dirty =
        (performMutation s0 buf).dirty) ∧
    redo s = s := by
  constructor
  · exact redo_undo_agrees (performMutation s0 buf) rfl
  · unfold redo
    rw [hre]
    rfl

/-- Witness for C2 at a concrete editor state and mutation. -/
theorem C2_witness :
    (redo (undo (performMutation
        { buffer := newTextBuffer, dirty := false, undoStack := [], redoStack := [],
          maxHistory := 50 }
        { lines := [['a']], cursor := ⟨0, 1⟩, anchor := none }))).buffer.lines =
      (performMutation
        { buffer := newTextBuffer, dirty := false, undoStack := [], redoStack := [],
          maxHistory := 50 }
        { lines := [['a']], cursor := ⟨0, 1⟩, anchor := none }).buffer.lines ∧
    redo { buffer := newTextBuffer, dirty := false, undoStack := [], redoStack := [],
           maxHistory := 50 } =
      { buffer := newTextBuffer, dirty := false, undoStack := [], redoStack := [],
        maxHistory := 50 } :=
  ⟨(C2_undo_redo_exact
      { buffer := newTextBuffer, dirty := false, undoStack := [], redoStack := [],
        maxHistory := 50 }
      { lines := [['a']], cursor := ⟨0, 1⟩, anchor := none }
      { buffer := newTextBuffer, dirty := false, undoStack := [], redoStack := [],
        maxHistory := 50 } rfl).1.1,
   (C2_undo_redo_exact
      { buffer := newTextBuffer, dirty := false, undoStack := [], redoStack := [],
        maxHistory := 50 }
      { lines := [['a']], cursor := ⟨0, 1⟩, anchor := none }
      { buffer := newTextBuffer, dirty := false, undoStack := [], redoStack := [],
        maxHistory := 50 } rfl).2⟩

/-! ## Autosave generation machine (editor_screen.go: scheduleAutoSave and
the autoSaveTickMsg branch of Update) -/

/-- The `editorState` fields the autosave claims speak about. -/
structure AutoSaveState where
  autoSaveToken : Nat
  pendingAutoSave : Nat
  autoSaveEnabled : Bool
  dirty : Bool
deriving DecidableEq

/-- Go `scheduleAutoSave`: when enabled, bump the generation token, remember
it as pending, and return a timer command carrying the captured token (the
timer delay is real time, outside the model; `none` models the nil command
returned when autosave is disabled). -/
def scheduleAutoSave (s : AutoSaveState) : AutoSaveState × Option Nat :=
  if s.autoSaveEnabled then
    let token := s.autoSaveToken + 1
    ({ s with autoSaveToken := token, pendingAutoSave := token }, some token)
  else (s, none)

/-- The `autoSaveTickMsg` branch of Go `Update`: the sidecar write is
attempted (result `true`) only when the carried token still equals the
pending generation, autosave is enabled and the buffer is dirty; otherwise
the message leaves the state untouched. -/
def handleAutoSaveTick (s : AutoSaveState) (token : Nat) : AutoSaveState × Bool :=
  if token = s.pendingAutoSave ∧ s.autoSaveEnabled = true ∧ s.dirty = true then
    ({ s with pendingAutoSave := 0 }, true)
  else (s, false)

/-- `n` consecutive `scheduleAutoSave` calls; returns the final state and
the token captured by each of the `n` timers, in order. -/
def scheduleRun : Nat → AutoSaveState → AutoSaveState × List (Option Nat)
  | 0, s => (s, [])
  | n + 1, s =>
    let step := scheduleAutoSave s
    let rest := scheduleRun n step.1
    (rest.1, step.2 :: rest.2)

theorem scheduleRun_spec (n : Nat) (s : AutoSaveState) (hen : s.autoSaveEnabled = true) :
    (scheduleRun n s).1.autoSaveToken = s.autoSaveToken + n ∧
    (scheduleRun n s).1.autoSaveEnabled = s.autoSaveEnabled ∧
    (scheduleRun n s).1.dirty = s.dirty ∧
    (scheduleRun n s).1.pendingAutoSave =
      (if n = 0 then s.pendingAutoSave else s.autoSaveToken + n) ∧
    (scheduleRun n s).2 = (List.range n).map (fun k => some (s.autoSaveToken + (k + 1))) := by
  induction n generalizing s with
  | zero => exact ⟨rfl, rfl, rfl, rfl, rfl⟩
  | succ m ih =>
    unfold scheduleRun scheduleAutoSave
    rw [if_pos hen]
    dsimp only
    obtain ⟨i1, i2, i3, i4, i5⟩ := ih
      { s with autoSaveToken := s.autoSaveToken + 1, pendingAutoSave := s.autoSaveToken + 1 }
      hen
    dsimp only at i1 i2 i3 i4 i5
    refine ⟨by rw [i1]; omega, i2, i3, ?_, ?_⟩
    · rw [i4]
      by_cases hm : m = 0
      · simp [hm]
      · rw [if_neg hm, if_neg (by omega)]
        omega
    · rw [i5, List.range_succ_eq_map, List.map_cons, List.map_map]
      refine congrArg₂ _ rfl ?_
      apply List.map_congr_left
      intro k _
      simp only [Function.comp_apply, Option.some.injEq]
      omega

/-- C5.  A firing autosave timer attempts the sidecar write only when its
captured generation equals the session's current pending generation, the
buffer is still dirty and autosave is enabled; a timer carrying a stale
token is a complete no-op; and after `n` consecutive reschedules from an
enabled state the captured generations are `token+1, …, token+n`, the
pending generation is `token+n`, so every timer except the one carrying the
final generation fires as a no-op. -/
theorem C5_autosave_coalescing (s : AutoSaveState) (n i : Nat)
    (hen : s.autoSaveEnabled = true) (h1 : 1 ≤ i) (hin : i < n) :
    (∀ (s' : AutoSaveState) (t : Nat), (handleAutoSaveTick s' t).2 = true →
        t = s'.pendingAutoSave ∧ s'.autoSaveEnabled = true ∧ s'.dirty = true) ∧
    (∀ (s' : AutoSaveState) (t : Nat), t ≠ s'.pendingAutoSave →
        handleAutoSaveTick s' t = (s', false)) ∧
    (scheduleRun n s).2 = (List.range n).map (fun k => some (s.autoSaveToken + (k + 1))) ∧
    (scheduleRun n s).1.pendingAutoSave = s.autoSaveToken + n ∧
    handleAutoSaveTick (scheduleRun n s).1 (s.autoSaveToken + i) =
      ((scheduleRun n s).1, false) := by
  have hwrite : ∀ (s' : AutoSaveState) (t : Nat), (handleAutoSaveTick s' t).2 = true →
      t = s'.pendingAutoSave ∧ s'.autoSaveEnabled = true ∧ s'.dirty = true := by
    intro s' t h
    unfold handleAutoSaveTick at h
    by_cases hc : t = s'.pendingAutoSave ∧ s'.autoSaveEnabled = true ∧ s'.dirty = true
    · exact hc
    · rw [if_neg hc] at h
      exact absurd h (by simp)
  have hstale : ∀ (s' : AutoSaveState) (t : Nat), t ≠ s'.pendingAutoSave →
      handleAutoSaveTick s' t = (s', false) := by
    intro s' t h
    unfold handleAutoSaveTick
    rw [if_neg (by intro hc; exact h hc.1)]
  obtain ⟨g1, g2, g3, g4, g5⟩ := scheduleRun_spec n s hen
  have hpending : (scheduleRun n s).1.pendingAutoSave = s.autoSaveToken + n := by
    rw [g4, if_neg (by omega)]
  refine ⟨hwrite, hstale, g5, hpending, ?_⟩
  exact hstale _ _ (by rw [hpending]; omega)

/-- Witness for C5 at a concrete session state with three schedules. -/
theorem C5_witness :
    handleAutoSaveTick
      (scheduleRun 3 { autoSaveToken := 0, pendingAutoSave := 0,
                       autoSaveEnabled := true, dirty := true }).1 1 =
      ((scheduleRun 3 { autoSaveToken := 0, pendingAutoSave := 0,
                        autoSaveEnabled := true, dirty := true }).1, false) :=
  (C5_autosave_coalescing
    { autoSaveToken := 0, pendingAutoSave := 0, autoSaveEnabled := true, dirty := true }
    3 1 rfl (by decide) (by decide)).2.2.2.2

/-! ## Load/save completion handling (editor_screen.go: handleLoaded and the
saveCompletedMsg branch of Update) -/

structure editorLoadedMsg where
  path : String
  content : String
  err : Option String
deriving DecidableEq

/-- The `editorState` fields the error-handling claim speaks about.
Timestamps (`statusAt`, `lastModified`) and the file mode are outside the
model. -/
structure SessionState where
  buffer : textBuffer
  dirty : Bool
  loading : Bool
  statusMessage : String
  lastSavedContent : String
  launchExternalAfterSave : Bool
deriving DecidableEq

/-- Model of Go `filepath.Base` for slash-separated paths: the last
non-empty component; `"."` for the empty path, `"/"` when the path is all
separators. -/
def baseName (path : String) : String :=
  if path = "" then "."
  else
    match (path.splitOn "/").reverse.find? (fun p => decide (p ≠ "")) with
    | some p => p
    | none => "/"

/-- Go `handleLoaded`: on error only the loading flag and the status message
change; on success the buffer is replaced wholesale and the dirty flag
cleared. -/
def handleLoaded (s : SessionState) (msg : editorLoadedMsg) : SessionState :=
  let s := { s with loading := false }
  match msg.err with
  | some e =>
    { s with statusMessage := "Failed to open " ++ baseName msg.path ++ ": " ++ e }
  | none =>
    { s with buffer := replaceAll s.buffer msg.content,
             dirty := false,
             lastSavedContent := msg.content,
             statusMessage := "Opened " ++ baseName msg.path }

/-- The `saveCompletedMsg` branch of Go `Update`: on error only the status
message and the pending external-editor launch change; on success the dirty
flag is cleared and the saved content remembered. -/
def handleSaveCompleted (s : SessionState) (err : Option String) : SessionState :=
  match err with
  | some e =>
    { s with statusMessage := "Save failed: " ++ e, launchExternalAfterSave := false }
  | none =>
    { s with statusMessage := "Saved", dirty := false,
             lastSavedContent := fullText s.buffer,
             launchExternalAfterSave := false }

/-- C6.  A load that completes with an error leaves the previous buffer,
dirty flag and last saved content untouched and only reports a status
message; a save that completes with an error leaves the buffer untouched,
keeps `dirty = true`, and only reports a status message. -/
theorem C6_io_errors_leave_buffer_intact (s : SessionState) (msg : editorLoadedMsg)
    (e : String) (herr : msg.err = some e) (hd : s.dirty = true) :
    ((handleLoaded s msg).buffer = s.buffer ∧
      (handleLoaded s msg).dirty = s.dirty ∧
      (handleLoaded s msg).lastSavedContent = s.lastSavedContent ∧
      (handleLoaded s msg).statusMessage =
        "Failed to open " ++ baseName msg.path ++ ": " ++ e) ∧
    ((handleSaveCompleted s (some e)).buffer = s.buffer ∧
      (handleSaveCompleted s (some e)).dirty = true ∧
      (handleSaveCompleted s (some e)).lastSavedContent = s.lastSavedContent ∧
      (handleSaveCompleted s (some e)).statusMessage = "Save failed: " ++ e) := by
  unfold handleLoaded handleSaveCompleted
  rw [herr]
  exact ⟨⟨rfl, rfl, rfl, rfl⟩, ⟨rfl, hd, rfl, rfl⟩⟩

/-- Witness for C6 at a concrete session state and failed load/save. -/
theorem C6_witness :
    (handleLoaded
        { buffer := newTextBuffer, dirty := true, loading := true, statusMessage := "",
          lastSavedContent := "", launchExternalAfterSave := false }
        { path := "dir/file.sg", content := "", err := some "permission denied" }).buffer =
      newTextBuffer ∧
    (handleSaveCompleted
        { buffer := newTextBuffer, dirty := true, loading := true, statusMessage := "",
          lastSavedContent := "", launchExternalAfterSave := false }
        (some "permission denied")).dirty = true :=
  ⟨(C6_io_errors_leave_buffer_intact
      { buffer := newTextBuffer, dirty := true, loading := true, statusMessage := "",
        lastSavedContent := "", launchExternalAfterSave := false }
      { path := "dir/file.sg", content := "", err := some "permission denied" }
      "permission denied" rfl rfl).1.1,
   (C6_io_errors_leave_buffer_intact
      { buffer := newTextBuffer, dirty := true, loading := true, statusMessage := "",
        lastSavedContent := "", launchExternalAfterSave := false }
      { path := "dir/file.sg", content := "", err := some "permission denied" }
      "permission denied" rfl rfl).2.2.1⟩

/-! ## Syntax highlighter model (internal/syntax/highlight.go) -/

inductive TokenKind
  | TokenPlain
  | TokenKeyword
  | TokenBuiltinType
  | TokenTypeName
  | TokenString
  | TokenNumber
  | TokenComment
  | TokenDirective
  | TokenAttribute
  | TokenOperator
deriving DecidableEq

structure Segment where
  Kind : TokenKind
  Text : String
deriving DecidableEq

structure Line where
  Segments : List Segment
  length : Nat
deriving DecidableEq

/-- Go `Line.append`: skip empty text, coalesce with a same-kind last
segment, and add the rune count of the text to the cached length. -/
def Line.append (l : Line) (kind : TokenKind) (text : String) : Line :=
  if text.length = 0 then l
  else
    match l.Segments.getLast? with
    | some seg =>
      if seg.Kind = kind then
        { Segments := l.Segments.dropLast ++ [{ Kind := seg.Kind, Text := seg.Text ++ text }],
          length := l.length + text.length }
      else
        { Segments := l.Segments ++ [{ Kind := kind, Text := text }],
          length := l.length + text.length }
    | none =>
      { Segments := [{ Kind := kind, Text := text }], length := l.length + text.length }

/-- Go `Line.Length`: the visible rune length of the line. -/
def Line.Length (l : Line) : Nat := l.length

/-- Go `lexState`.  `blockDepth` is a Go `int` that the code only decrements
under a positivity guard, so `Nat` is faithful. -/
structure lexState where
  blockDepth : Nat
  inString : Bool
deriving DecidableEq

/-- Indexing into the rune slice; every use is guarded by a bounds check, so
the default is never observed. -/
def runeAt (runes : List Char) (i : Nat) : Char :=
  runes.getD i ' '

/-- Model of Go `unicode.IsSpace`: the Unicode White_Space property,
enumerated. -/
def goIsSpace (c : Char) : Bool :=
  decide (c.toNat = 0x09 ∨ c.toNat = 0x0a ∨ c.toNat = 0x0b ∨ c.toNat = 0x0c ∨
    c.toNat = 0x0d ∨ c.toNat = 0x20 ∨ c.toNat = 0x85 ∨ c.toNat = 0xa0 ∨
    c.toNat = 0x1680 ∨ (0x2000 ≤ c.toNat ∧ c.toNat ≤ 0x200a) ∨ c.toNat = 0x2028 ∨
    c.toNat = 0x2029 ∨ c.toNat = 0x202f ∨ c.toNat = 0x205f ∨ c.toNat = 0x3000)

/-- Model of Go `unicode.IsLetter`, exact on the ASCII range (every input
the claims evaluate is ASCII; non-ASCII letter categories are not
modelled). -/
def goIsLetter (c : Char) : Bool := c.isAlpha

/-- Model of Go `unicode.IsDigit`, exact on the ASCII range. -/
def goIsDigit (c : Char) : Bool := c.isDigit

/-- Model of Go `unicode.IsUpper`, exact on the ASCII range. -/
def goIsUpper (c : Char) : Bool := c.isUpper

def isIdentifierStart (c : Char) : Bool := goIsLetter c || c = '_'

def isIdentifierPart (c : Char) : Bool := goIsLetter c || goIsDigit c || c = '_'

def isOperatorRune (c : Char) : Bool :=
  decide (c = '+' ∨ c = '-' ∨ c = '*' ∨ c = '/' ∨ c = '%' ∨ c = '=' ∨ c = '!' ∨
    c = '<' ∨ c = '>' ∨ c = '&' ∨ c = '|' ∨ c = '^' ∨ c = '~' ∨ c = '?' ∨ c = ':' ∨
    c = '.' ∨ c = '#')

def isHexDigit (c : Char) : Bool :=
  goIsDigit c || decide ('a' ≤ c ∧ c ≤ 'f') || decide ('A' ≤ c ∧ c ≤ 'F')

def isNumberStart (runes : List Char) (i : Nat) : Bool :=
  if i ≥ runes.length then false
  else if goIsDigit (runeAt runes i) then true
  else decide (runeAt runes i = '.' ∧ i + 1 < runes.length ∧
    goIsDigit (runeAt runes (i + 1)) = true)

/-- A bounded scan while a predicate holds; the fuel passed by all callers
(`runes.length`) bounds the number of iterations. -/
def scanWhile (p : Char → Bool) (runes : List Char) : Nat → Nat → Nat
  | 0, i => i
  | fuel + 1, i =>
    if i < runes.length ∧ p (runeAt runes i) = true then scanWhile p runes fuel (i + 1)
    else i

/-- Go `consumeNumber`: hex and binary prefixes, decimal digits with `_`
separators, a fractional part requiring a digit after the dot, and an
optional signed exponent. -/
def consumeNumber (runes : List Char) (i : Nat) : Nat :=
  if i ≥ runes.length then i
  else if runeAt runes i = '0' ∧ i + 1 < runes.length ∧
      (runeAt runes (i + 1) = 'x' ∨ runeAt runes (i + 1) = 'X') then
    scanWhile (fun c => isHexDigit c || c = '_') runes runes.length (i + 2)
  else if runeAt runes i = '0' ∧ i + 1 < runes.length ∧
      (runeAt runes (i + 1) = 'b' ∨ runeAt runes (i + 1) = 'B') then
    scanWhile (fun c => c = '0' || c = '1' || c = '_') runes runes.length (i + 2)
  else
    let i := scanWhile (fun c => goIsDigit c || c = '_') runes runes.length i
    let i :=
      if runeAt runes i = '.' ∧ i < runes.length ∧ i + 1 < runes.length ∧
          goIsDigit (runeAt runes (i + 1)) = true then
        scanWhile (fun c => goIsDigit c || c = '_') runes runes.length (i + 1)
      else i
    if i < runes.length ∧ (runeAt runes i = 'e' ∨ runeAt runes i = 'E') then
      let j := i + 1
      let j := if j < runes.length ∧ (runeAt runes j = '+' ∨ runeAt runes j = '-') then j + 1
        else j
      if j < runes.length ∧ goIsDigit (runeAt runes j) = true then
        scanWhile (fun c => goIsDigit c || c = '_') runes runes.length (j + 1)
      else i
    else i

/-- The block-comment scanning loop of Go `highlightLine`.  The continuation
loop (entered with positive carried depth) and the loop that follows `/*`
have the same body and exit at the same index, so one scanner models both.
Returns the index after the scan and the remaining depth. -/
def scanBlock (runes : List Char) : Nat → Nat → Nat → Nat × Nat
  | 0, i, depth => (i, depth)
  | fuel + 1, i, depth =>
    if i < runes.length then
      if runeAt runes i = '/' ∧ i + 1 < runes.length ∧ runeAt runes (i + 1) = '*' then
        scanBlock runes fuel (i + 2) (depth + 1)
      else if runeAt runes i = '*' ∧ i + 1 < runes.length ∧ runeAt runes (i + 1) = '/' then
        if depth - 1 = 0 then (i + 2, 0)
        else scanBlock runes fuel (i + 2) (depth - 1)
      else scanBlock runes fuel (i + 1) depth
    else (i, depth)

/-- The string scanning loop of Go `highlightLine` (shared by the carried
`inString` branch and the `"` branch): a backslash escapes the next rune, a
closing quote ends the string.  Returns the index after the scan and
whether the string is still open at end of line. -/
def scanString (runes : List Char) : Nat → Nat → Nat × Bool
  | 0, i => (i, true)
  | fuel + 1, i =>
    if i < runes.length then
      if runeAt runes i = '\\' ∧ i + 1 < runes.length then scanString runes fuel (i + 2)
      else if runeAt runes i = '"' then (i + 1, false)
      else scanString runes fuel (i + 1)
    else (i, true)

/-- The operator scanning loop of Go `highlightLine`: a maximal run of
operator runes, stopping before a `//` or `/*` comment start. -/
def scanOperator (runes : List Char) : Nat → Nat → Nat
  | 0, i => i
  | fuel + 1, i =>
    if i < runes.length ∧ isOperatorRune (runeAt runes i) = true then
      if runeAt runes i = '/' ∧ i + 1 < runes.length ∧
          (runeAt runes (i + 1) = '/' ∨ runeAt runes (i + 1) = '*') then i
      else scanOperator runes fuel (i + 1)
    else i

def keywords : List String :=
  ["pub", "fn", "let", "mut", "if", "else", "while", "for", "in",
   "break", "continue", "import", "newtype", "type", "literal", "alias",
   "extern", "return", "signal", "compare", "spawn", "is", "finally",
   "async", "await", "macro", "pragma", "own",
   "true", "false", "nothing"]

def builtinTypes : List String :=
  ["int", "uint", "float",
   "int8", "int16", "int32", "int64",
   "uint8", "uint16", "uint32", "uint64",
   "float16", "float32", "float64",
   "bool", "string"]

/-- Go `isGenericTypeName`: a leading upper-case rune followed only by
letters, digits and underscores. -/
def isGenericTypeName (text : String) : Bool :=
  match text.toList with
  | [] => false
  | c :: rest =>
    goIsUpper c && (c :: rest).all (fun r => goIsLetter r || goIsDigit r || r = '_')

/-- Model of Go `strings.ToLower`, exact on the ASCII range (every input
the claims evaluate is ASCII). -/
def asciiToLower (c : Char) : Char :=
  if 'A' ≤ c ∧ c ≤ 'Z' then Char.ofNat (c.toNat + 32) else c

/-- Go `classifyIdentifier`: case-insensitive keyword and builtin-type
lookup, then the generic type-name test. -/
def classifyIdentifier (text : String) : TokenKind :=
  let lower := String.mk (text.toList.map asciiToLower)
  if keywords.contains lower then TokenKind.TokenKeyword
  else if builtinTypes.contains lower then TokenKind.TokenBuiltinType
  else if isGenericTypeName text then TokenKind.TokenTypeName
  else TokenKind.TokenPlain

/-- The Go slice-to-string conversion `string(runes[a:b])`. -/
def strRange (runes : List Char) (a b : Nat) : String :=
  String.mk ((runes.take b).drop a)

/-- The main loop of Go `highlightLine`, fuel-indexed; every branch advances
the index by at least one, so `runes.length + 1` fuel always suffices. -/
def highlightLoop (runes : List Char) : Nat → Nat → lexState → Line → Line × lexState
  | 0, _, state, out => (out, state)
  | fuel + 1, i, state, out =>
    if i ≥ runes.length then (out, state)
    else if state.blockDepth > 0 then
      let scan := scanBlock runes runes.length i state.blockDepth
      highlightLoop runes fuel scan.1 { state with blockDepth := scan.2 }
        (out.append TokenKind.TokenComment (strRange runes i scan.1))
    else if state.inString then
      let scan := scanString runes runes.length i
      let j := if scan.2 then runes.length else scan.1
      highlightLoop runes fuel j { state with inString := scan.2 }
        (out.append TokenKind.TokenString (strRange runes i j))
    else if i + 2 < runes.length ∧ runeAt runes i = '/' ∧ runeAt runes (i + 1) = '/' ∧
        runeAt runes (i + 2) = '/' then
      (out.append TokenKind.TokenDirective (strRange runes i runes.length), state)
    else if i + 1 < runes.length ∧ runeAt runes i = '/' ∧ runeAt runes (i + 1) = '/' then
      (out.append TokenKind.TokenComment (strRange runes i runes.length), state)
    else if i + 1 < runes.length ∧ runeAt runes i = '/' ∧ runeAt runes (i + 1) = '*' then
      let scan := scanBlock runes runes.length (i + 2) (state.blockDepth + 1)
      highlightLoop runes fuel scan.1 { state with blockDepth := scan.2 }
        (out.append TokenKind.TokenComment (strRange runes i scan.1))
    else if goIsSpace (runeAt runes i) then
      let j := scanWhile goIsSpace runes runes.length i
      highlightLoop runes fuel j state (out.append TokenKind.TokenPlain (strRange runes i j))
    else if runeAt runes i = '"' then
      let scan := scanString runes runes.length (i + 1)
      let j := if scan.2 then runes.length else scan.1
      highlightLoop runes fuel j { state with inString := scan.2 }
        (out.append TokenKind.TokenString (strRange runes i j))
    else if isNumberStart runes i then
      let j := consumeNumber runes i
      highlightLoop runes fuel j state (out.append TokenKind.TokenNumber (strRange runes i j))
    else if runeAt runes i = '@' then
      let j := scanWhile isIdentifierPart runes runes.length (i + 1)
      highlightLoop runes fuel j state
        (out.append TokenKind.TokenAttribute (strRange runes i j))
    else if isIdentifierStart (runeAt runes i) then
      let j := scanWhile isIdentifierPart runes runes.length (i + 1)
      let text := strRange runes i j
      highlightLoop runes fuel j state (out.append (classifyIdentifier text) text)
    else if isOperatorRune (runeAt runes i) then
      let j := scanOperator runes runes.length (i + 1)
      highlightLoop runes fuel j state
        (out.append TokenKind.TokenOperator (strRange runes i j))
    else
      highlightLoop runes fuel (i + 1) state
        (out.append TokenKind.TokenPlain (strRange runes i (i + 1)))

/-- Go `highlightLine`: one left-to-right pass over the line's runes,
starting from the carried lexical state. -/
def highlightLine (line : String) (state : lexState) : Line × lexState :=
  highlightLoop line.toList (line.toList.length + 1) 0 state { Segments := [], length := 0 }

/-- C7.  From the initial lexical state, `"/* start"` highlights as a single
Comment segment covering the whole line with `blockDepth = 1` afterwards;
from that state, `"end */ x"` highlights `"end */"` as Comment, tokenizes
`" x"` fresh outside the comment (plain whitespace and a plain identifier,
coalesced), and the depth returns to 0. -/
theorem C7_block_comment_carry :
    highlightLine "/* start" { blockDepth := 0, inString := false } =
      ({ Segments := [{ Kind := TokenKind.TokenComment, Text := "/* start" }], length := 8 },
        { blockDepth := 1, inString := false }) ∧
    highlightLine "end */ x" { blockDepth := 1, inString := false } =
      ({ Segments := [{ Kind := TokenKind.TokenComment, Text := "end */" },
                      { Kind := TokenKind.TokenPlain, Text := " x" }], length := 8 },
        { blockDepth := 0, inString := false }) := by
  exact ⟨rfl, by decide⟩

/-! ## Window slicing (internal/syntax/highlight.go: WindowLine) -/

/-- The loop of Go `removeLastRune`: pop empty trailing segments, then
remove the final rune of the last non-empty segment (dropping the segment
if it becomes empty) and decrement the cached length; `false` when no rune
was left to remove.  The fuel (the number of segments) bounds the
iterations. -/
def removeLastRuneLoop : Line → Nat → Line × Bool
  | line, 0 => (line, false)
  | line, fuel + 1 =>
    match line.Segments.getLast? with
    | none => (line, false)
    | some seg =>
      let runes := seg.Text.toList
      if runes.length = 0 then
        removeLastRuneLoop { line with Segments := line.Segments.dropLast } fuel
      else
        let rest := runes.dropLast
        if rest.length = 0 then
          ({ Segments := line.Segments.dropLast, length := line.length - 1 }, true)
        else
          ({ Segments := line.Segments.dropLast ++
                [{ Kind := seg.Kind, Text := String.mk rest }],
             length := line.length - 1 }, true)

/-- Go `removeLastRune` (`line.length--` is `Nat` subtraction here; on the
well-formed lines the function receives, the length is positive whenever a
rune is removed). -/
def removeLastRune (line : Line) : Line × Bool :=
  removeLastRuneLoop line line.Segments.length

/-- The segment copy loop of Go `WindowLine`: skip `skip` leading columns,
then copy at most `copyLeft` columns, preserving segment kinds. -/
def copyLoop : List Segment → Line → Nat → Nat → Line
  | [], out, _, _ => out
  | seg :: rest, out, skip, copyLeft =>
    if copyLeft = 0 then out
    else
      let runes := seg.Text.toList
      let segLen := runes.length
      if segLen = 0 then copyLoop rest out skip copyLeft
      else if skip ≥ segLen then copyLoop rest out (skip - segLen) copyLeft
      else
        let takeN := min (segLen - skip) copyLeft
        copyLoop rest (out.append seg.Kind (String.mk ((runes.drop skip).take takeN))) 0
          (copyLeft - takeN)

/-- Go `WindowLine`: the visible sub-line at `start` constrained to `width`
columns, with an ellipsis column reserved on the left when `start > 0` and
on the right when the window does not reach the end of the line.  The
source's final if-chain appends the ellipsis in every branch once
`rightIndicator` holds; when the right column was not reserved it first
removes the last copied rune. -/
def WindowLine (line : Line) (start width : Int) : Line :=
  if width ≤ 0 then { Segments := [], length := 0 }
  else if line.Length = 0 then { Segments := [], length := 0 }
  else
    let total := line.Length
    let start0 := (if start < 0 then 0 else start).toNat
    let start1 := if start0 > total then total else start0
    let remaining0 := width.toNat
    let out0 : Line := { Segments := [], length := 0 }
    let out1 := if 0 < start1 ∧ 0 < remaining0 then out0.append TokenKind.TokenPlain "…"
      else out0
    let remaining1 := if 0 < start1 ∧ 0 < remaining0 then remaining0 - 1 else remaining0
    let contentWidth0 := remaining1
    let rightIndicator := start1 + contentWidth0 < total
    let contentWidth1 :=
      if rightIndicator ∧ 0 < remaining1 then
        (if 0 < contentWidth0 then contentWidth0 - 1 else contentWidth0)
      else contentWidth0
    let reservedRight := rightIndicator ∧ 0 < remaining1
    let out2 := copyLoop line.Segments out1 start1 contentWidth1
    if rightIndicator then
      if reservedRight then out2.append TokenKind.TokenPlain "…"
      else ((removeLastRune out2).1).append TokenKind.TokenPlain "…"
    else out2

/-- The per-column view of a segment: each rune paired with the segment's
kind. -/
def flattenSeg (s : Segment) : List (TokenKind × Char) :=
  s.Text.toList.map (fun c => (s.Kind, c))

/-- The per-column view of a line. -/
def Line.flatten (l : Line) : List (TokenKind × Char) :=
  l.Segments.flatMap flattenSeg

/-- A line is well formed when its cached length matches its content; the
`append` smart constructor maintains this. -/
def Line.WF (l : Line) : Prop :=
  l.length = l.flatten.length

theorem flatten_append (l : Line) (k : TokenKind) (t : String) :
    (Line.append l k t).flatten = l.flatten ++ t.toList.map (fun c => (k, c)) := by
  obtain ⟨segs, len⟩ := l
  unfold Line.append
  by_cases ht : t.length = 0
  · rw [if_pos ht]
    have hnil : t.toList = [] := by
      have : t.toList.length = 0 := by simpa using ht
      exact List.length_eq_zero.mp this
    have hdata : t.data = [] := hnil
    simp [hdata]
  · rw [if_neg ht]
    rcases List.eq_nil_or_concat segs with hnil | ⟨L, b, hcat⟩
    · subst hnil
      simp [Line.flatten, flattenSeg]
    · subst hcat
      rw [List.concat_eq_append, List.getLast?_concat]
      dsimp only
      by_cases hk : b.Kind = k
      · rw [if_pos hk]
        rw [List.dropLast_concat]
        simp only [Line.flatten, List.flatMap_append, List.flatMap_cons, List.flatMap_nil,
          flattenSeg, List.append_nil]
        have : (b.Text ++ t).toList = b.Text.toList ++ t.toList := by
          simp [String.toList]
        rw [this, List.map_append, hk, List.append_assoc]
      · rw [if_neg hk]
        simp only [Line.flatten, List.flatMap_append, List.flatMap_cons, List.flatMap_nil,
          flattenSeg, List.append_nil, List.append_assoc]

theorem drop_take_split {α : Type} (A B : List α) (skip copyLeft : Nat)
    (h : skip < A.length) :
    (A.drop skip).take (min (A.length - skip) copyLeft) ++
        B.take (copyLeft - min (A.length - skip) copyLeft) =
      ((A ++ B).drop skip).take copyLeft := by
  rw [List.drop_append_eq_append_drop, Nat.sub_eq_zero_of_le (Nat.le_of_lt h),
    List.drop_zero, List.take_append_eq_append_take, List.length_drop]
  by_cases hc : copyLeft ≤ A.length - skip
  · rw [Nat.min_eq_right hc, Nat.sub_self, Nat.sub_eq_zero_of_le hc]
  · have hle : A.length - skip ≤ copyLeft := by omega
    rw [Nat.min_eq_left hle]
    refine congrArg₂ _ ?_ rfl
    rw [List.take_of_length_le (by rw [List.length_drop]), List.take_of_length_le (by
      rw [List.length_drop]; omega)]

theorem flatten_copyLoop (segs : List Segment) (out : Line) (skip copyLeft : Nat) :
    (copyLoop segs out skip copyLeft).flatten =
      out.flatten ++ ((segs.flatMap flattenSeg).drop skip).take copyLeft := by
  induction segs generalizing out skip copyLeft with
  | nil => simp [copyLoop]
  | cons seg rest ih =>
    unfold copyLoop
    by_cases hcl : copyLeft = 0
    · rw [if_pos hcl]
      simp [hcl]
    · rw [if_neg hcl]
      by_cases hseg : seg.Text.toList.length = 0
      · rw [if_pos hseg]
        rw [ih]
        have hflat : flattenSeg seg = [] := by
          unfold flattenSeg
          rw [List.length_eq_zero.mp hseg]
          rfl
        rw [List.flatMap_cons, hflat, List.nil_append]
      · rw [if_neg hseg]
        by_cases hskip : skip ≥ seg.Text.toList.length
        · rw [if_pos hskip]
          rw [ih]
          have hlen : (flattenSeg seg).length = seg.Text.toList.length := by
            simp [flattenSeg]
          have hdropA : (flattenSeg seg).drop skip = [] :=
            List.drop_eq_nil_of_le (by rw [hlen]; omega)
          rw [List.flatMap_cons, List.drop_append_eq_append_drop, hdropA, List.nil_append,
            hlen]
        · rw [if_neg hskip]
          rw [ih]
          rw [flatten_append, List.append_assoc]
          refine congrArg₂ _ rfl ?_
          have hmap : (String.mk ((seg.Text.toList.drop skip).take
              (min (seg.Text.toList.length - skip) copyLeft))).toList.map
                (fun c => (seg.Kind, c)) =
              ((flattenSeg seg).drop skip).take
                (min ((flattenSeg seg).length - skip) copyLeft) := by
            have h1 : (String.mk ((seg.Text.toList.drop skip).take
                (min (seg.Text.toList.length - skip) copyLeft))).toList =
                (seg.Text.toList.drop skip).take
                  (min (seg.Text.toList.length - skip) copyLeft) := rfl
            rw [h1]
            unfold flattenSeg
            rw [List.map_take, List.map_drop, List.length_map]
          have hlen2 : (flattenSeg seg).length = seg.Text.toList.length := by
            simp [flattenSeg]
          rw [List.flatMap_cons, List.drop_zero, hmap, ← hlen2]
          rw [drop_take_split _ _ _ _ (by rw [hlen2]; omega)]

/-- C9.  On every well-formed highlighted line of exactly 10 columns,
`WindowLine line 0 5` has no leading ellipsis: its columns are the line's
own first 4 columns followed by the trailing ellipsis; and
`WindowLine line 3 4` is a leading ellipsis, exactly the 2 content columns
starting at column 3, and a trailing ellipsis. -/
theorem C9_window_ellipsis (line : Line) (hwf : line.WF) (hlen : line.Length = 10) :
    (WindowLine line 0 5).flatten =
      line.flatten.take 4 ++ [(TokenKind.TokenPlain, '…')] ∧
    (WindowLine line 3 4).flatten =
      (TokenKind.TokenPlain, '…') ::
        ((line.flatten.drop 3).take 2 ++ [(TokenKind.TokenPlain, '…')]) := by
  have hdots : "…".toList.map (fun c => (TokenKind.TokenPlain, c)) =
      [(TokenKind.TokenPlain, '…')] := rfl
  constructor
  · have e1 : WindowLine line 0 5 =
        Line.append (copyLoop line.Segments { Segments := [], length := 0 } 0 4)
          TokenKind.TokenPlain "…" := by
      unfold WindowLine
      rw [if_neg (by decide), if_neg (by rw [hlen]; decide)]
      simp only [hlen]
      norm_num
      rfl
    rw [e1, flatten_append, flatten_copyLoop, hdots, List.drop_zero]
    show [] ++ (line.Segments.flatMap flattenSeg).take 4 ++ [(TokenKind.TokenPlain, '…')] =
      line.flatten.take 4 ++ [(TokenKind.TokenPlain, '…')]
    rw [List.nil_append]
    rfl
  · have e2 : WindowLine line 3 4 =
        Line.append (copyLoop line.Segments
            (Line.append { Segments := [], length := 0 } TokenKind.TokenPlain "…") 3 2)
          TokenKind.TokenPlain "…" := by
      unfold WindowLine
      rw [if_neg (by decide), if_neg (by rw [hlen]; decide)]
      simp only [hlen]
      norm_num
      rfl
    rw [e2, flatten_append, flatten_copyLoop, flatten_append, hdots]
    show (([] ++ [(TokenKind.TokenPlain, '…')]) ++
          ((line.Segments.flatMap flattenSeg).drop 3).take 2) ++
        [(TokenKind.TokenPlain, '…')] =
      (TokenKind.TokenPlain, '…') ::
        ((line.flatten.drop 3).take 2 ++ [(TokenKind.TokenPlain, '…')])
    rw [List.nil_append, List.singleton_append, List.cons_append]
    rfl

/-- Witness for C9 at a concrete 10-column line. -/
theorem C9_witness :
    (WindowLine
        { Segments := [{ Kind := TokenKind.TokenPlain, Text := "0123456789" }],
          length := 10 } 0 5).flatten =
      ({ Segments := [{ Kind := TokenKind.TokenPlain, Text := "0123456789" }],
          length := 10 } : Line).flatten.take 4 ++ [(TokenKind.TokenPlain, '…')] :=
  (C9_window_ellipsis
    { Segments := [{ Kind := TokenKind.TokenPlain, Text := "0123456789" }], length := 10 }
    (by rfl) rfl).1
